import Mathlib

/-!
Verification development for the `fingertips` inverted-index builder
(`src/main.rs` and `src/off_thread_ext.rs`).

The stateful Rust iterators are shallowly embedded as pure functions on
lists.  An iterator is a finite list of the items it yields; an
iterator adapter is a function on such lists.  A reducer with signature
`FnMut(&mut T, Option<T>) -> Option<T>` is embedded as
`T → Option T → T × Option T`, where the first component of the result
is the value left in the `&mut T` cell after the call; a reducer that
can panic (via `unwrap`) instead returns `Option (T × Option T)`, with
`none` for the panic.

The repository modules `index`, `read`, `write`, `merge` and `tmp` are
not part of the given sources; where the orchestration in `main.rs`
depends on them they are modelled from the spec (see the doc comments
marked `Modelled from the spec:`).  The content of an in-memory index
(`InMemoryIndex`) is modelled as a multiset of postings, merging as
multiset union, and a segment file as the content written into it.
-/

deriving instance DecidableEq for Except

namespace Fingertips

/-- Error kinds that the modelled program can produce: a failed
`File::open`/`read_to_string` in `read_whole_file`, the `InvalidData`
"Not a text" error of `make_single_file_index`, and a failed
segment-file write in `write_index_to_tmp_file`. -/
inductive IoErr : Type where
  | readErr : IoErr
  | notText : IoErr
  | writeErr : IoErr
deriving DecidableEq

/-- The `Message` enum of `main.rs`: the payload flowing between
pipeline stages, either raw document text or a segment-file path.  The
path type is a parameter; the pipeline model instantiates it with the
content written to the file. -/
inductive Message (π : Type) : Type where
  | Text : String → Message π
  | FilePath : π → Message π
deriving DecidableEq

/-- Whether a message carries a segment-file path. -/
def Message.isFilePath {π : Type} : Message π → Bool
  | .FilePath _ => true
  | .Text _ => false

/-- The `AccValue` enum of `off_thread_ext.rs`: items yielded by the
threshold accumulator, either a "still accumulating" marker or an
emitted value. -/
inductive AccValue (T : Type) : Type where
  | Empty : AccValue T
  | Value : T → AccValue T
deriving DecidableEq

/-- Payload of an `AccValue`, if any. -/
def AccValue.getValue {T : Type} : AccValue T → Option T
  | .Empty => none
  | .Value v => some v

/-- The emitted values of an `AccValue` stream, i.e. the effect of the
`filter_map` on `AccValue::Value` used in `run_pipeline` and in the
`test_util` of `off_thread_ext.rs`. -/
def outValues {T : Type} (l : List (AccValue T)) : List T :=
  l.filterMap AccValue.getValue

/-- Embedding of `ConditionAccmulator::next` from `off_thread_ext.rs`,
iterated to exhaustion.  The struct state is `acc` (current
accumulated value), `current` (the one-item lookahead buffer) and the
remaining source items; the `done` flag is true exactly in the branches
that return without a recursive call.  `f` is the stored
`condition_func`; `f acc item = none` models a panic inside the call
(the `unwrap` in `make_in_memory_merge`).

The result is `(calls, outputs, panicked)`: the arguments passed to the
condition function, one per `next()` call, in order; the `AccValue`
items yielded before a panic; and whether some call panicked.  Each
`next()` call takes the next item from `current` (or, when empty, from
the source), then pulls one lookahead item from the source, setting
`done` if the source is exhausted; it passes the item to
`condition_func`, yields `Value r` if the call returns `Some(r)`,
yields `Empty` if it returns `None` while not done, and on `None` when
done swaps the accumulator for a fresh default and yields the old
accumulator (the forced flush). -/
def ConditionAccmulator.run {T : Type} (f : T → Option T → Option (T × Option T)) :
    T → Option T → List T → List (Option T) × List (AccValue T) × Bool
  | acc, none, [] =>
    match f acc none with
    | none => ([none], [], true)
    | some (_, some r) => ([none], [AccValue.Value r], false)
    | some (a, none) => ([none], [AccValue.Value a], false)
  | acc, none, h :: t => ConditionAccmulator.run f acc (some h) t
  | acc, some v, [] =>
    match f acc (some v) with
    | none => ([some v], [], true)
    | some (_, some r) => ([some v], [AccValue.Value r], false)
    | some (a, none) => ([some v], [AccValue.Value a], false)
  | acc, some v, h :: t =>
    match f acc (some v) with
    | none => ([some v], [], true)
    | some (a, some r) =>
      let rest := ConditionAccmulator.run f a (some h) t
      (some v :: rest.1, AccValue.Value r :: rest.2.1, rest.2.2)
    | some (a, none) =>
      let rest := ConditionAccmulator.run f a (some h) t
      (some v :: rest.1, AccValue.Empty :: rest.2.1, rest.2.2)

/-- `condition_reduce` from `off_thread_ext.rs` for a total (non
panicking) condition function: the stream of `AccValue` items produced
from the source list `l`.  The initial accumulator is the `default`
value required by the `T: Default` bound; it is passed explicitly. -/
def condition_reduce {T : Type} (f : T → Option T → T × Option T) (dflt : T)
    (l : List T) : List (AccValue T) :=
  (ConditionAccmulator.run (fun a i => some (f a i)) dflt none l).2.1

/-- The sequence of arguments that `condition_reduce` passes to its
condition function, one per `next()` call, in order. -/
def condition_calls {T : Type} (f : T → Option T → T × Option T) (dflt : T)
    (l : List T) : List (Option T) :=
  (ConditionAccmulator.run (fun a i => some (f a i)) dflt none l).1

/-- Embedding of `OffThreadExt::off_thread` from `off_thread_ext.rs`.
The implementation spawns a worker that pushes every source item into a
`sync_channel` of capacity `cap` (hardcoded to 1024 in the source) and
then immediately `join`s the worker before returning the receiver.
Since nothing drains the channel while the caller is blocked in
`join()`, the worker finishes only when every item fits into the
channel buffer; with more than `cap` items the send blocks forever and
`join` never returns (deadlock), modelled as `none`.  On success the
receiver yields exactly the buffered items in source order. -/
def off_thread_run {γ : Type} (cap : Nat) (l : List γ) : Option (List γ) :=
  if l.length ≤ cap then some l else none

/-- Embedding of `ErrorsTo::errors_to` from `off_thread_ext.rs`: the
`filter_map` keeps the unwrapped payloads of `Ok` items in order and
sends each `Err` item (the whole `Result` value) to the error sink.
The result is `(values kept, items sent to the sink)`. -/
def errors_to {E α : Type} : List (Except E α) → List α × List (Except E α)
  | [] => ([], [])
  | x :: t =>
    let rest := errors_to t
    match x with
    | .error e => (rest.1, .error e :: rest.2)
    | .ok v => (v :: rest.1, rest.2)

/-- `read_whole_file` from `main.rs`: open the document and read its
whole text, producing `Ok(Message::Text(text))` or an I/O error.  The
filesystem is modelled by `readF`, mapping a document path (a natural
number) to its text, or `none` when `File::open`/`read_to_string`
fails. -/
def read_whole_file {π : Type} (readF : Nat → Option String) (p : Nat) :
    Except IoErr (Message π) :=
  match readF p with
  | some t => .ok (.Text t)
  | none => .error .readErr

/-- `make_single_file_index` from `main.rs`: build the per-document
index from an enumerated message; a message that is not `Text` yields
the `InvalidData` "Not a text" error.  `fromDoc` models the
collaborator `InMemoryIndex::from_single_document`.

Modelled from the spec: `InMemoryIndex` (module `index`, not under
`src/`) is a term-to-postings map; its content is modelled as a
multiset of postings produced by the abstract `fromDoc`. -/
def make_single_file_index {β π : Type} (fromDoc : Nat → String → β) :
    Nat × Message π → Except IoErr β
  | (doc_id, .Text t) => .ok (fromDoc doc_id t)
  | (_, .FilePath _) => .error .notText

/-- `make_in_memory_merge` from `main.rs`, the reducer handed to
`condition_reduce`: `file_index.unwrap()` panics when the item is
`None` (modelled as `none`); otherwise the item is merged into the
accumulator, and when `is_large` fires the accumulator is moved out by
`mem::replace(acc, InMemoryIndex::new())` and returned.

Modelled from the spec: `InMemoryIndex::merge` (module `index`, not
under `src/`) combines two fragments; on the multiset-of-postings
content model it is multiset union, and `InMemoryIndex::new()` is the
empty content `0`.  `is_large` stays an abstract predicate. -/
def make_in_memory_merge {α : Type} (is_large : Multiset α → Bool)
    (acc : Multiset α) (file_index : Option (Multiset α)) :
    Option (Multiset α × Option (Multiset α)) :=
  match file_index with
  | none => none
  | some fi =>
    let a := acc + fi
    if is_large a then some (0, some a) else some (a, none)

/-- The stage-4 map body of `run_pipeline` (`main.rs` lines 111-115):
write one flushed index to a fresh temporary segment file; the `?` on
`write_index_to_tmp_file` turns a write failure into an `Err` (which
the following `errors_to` routes to the side-channel), and a
successful write is wrapped in `Ok(Message::FilePath(..))`.

Modelled from the spec: `write_index_to_tmp_file` and `TmpDir` (modules
`write` and `tmp`, not under `src/`) serialize the index to a uniquely
named file and may fail (`write_segment(index, tmp_dir) -> Result<Path>`);
the abstract `writeOk` says which writes succeed, and a segment file is
modelled by the content written into it. -/
def write_stage_item {α : Type} (writeOk : Multiset α → Bool)
    (big : Multiset α) : Except IoErr (Message (Multiset α)) :=
  if writeOk big then .ok (.FilePath big) else .error .writeErr

/-- The loop of `run_single_threaded` from `main.rs` over the remaining
enumerated documents, with the current `accumulated_index` and the
content accumulated so far in the `FileMerge` (the union of the segment
files added to it).  A read failure aborts with `Err` (the `?` on
`File::open`/`read_to_string`), as does a failed spill write (the `?`
on `write_index_to_tmp_file`, `writeOk` being the shared write model);
after the loop, a nonempty accumulator is written out (again fallibly)
and added, and `merge.finish()` produces the final merged content.

Modelled from the spec: `FileMerge` (module `merge`, not under `src/`)
merges the added segment files into the final index; its on-disk result
is modelled as the multiset union of the added contents.
`InMemoryIndex::is_empty` is content emptiness. -/
def run_single_threaded_aux {α : Type} [DecidableEq α]
    (fromDoc : Nat → String → Multiset α) (is_large : Multiset α → Bool)
    (writeOk : Multiset α → Bool) (readF : Nat → Option String) :
    List (Nat × Nat) → Multiset α → Multiset α → Except IoErr (Multiset α)
  | [], acc, segs =>
    if acc = 0 then .ok segs
    else if writeOk acc then .ok (segs + acc) else .error .writeErr
  | (doc_id, p) :: rest, acc, segs =>
    match readF p with
    | none => .error .readErr
    | some text =>
      let acc' := acc + fromDoc doc_id text
      if is_large acc' then
        if writeOk acc' then
          run_single_threaded_aux fromDoc is_large writeOk readF rest 0 (segs + acc')
        else .error .writeErr
      else
        run_single_threaded_aux fromDoc is_large writeOk readF rest acc' segs

/-- `run_single_threaded` from `main.rs`: enumerate the documents and
run the sequential read/index/accumulate/spill/merge loop, returning
the content of the final merged index. -/
def run_single_threaded {α : Type} [DecidableEq α]
    (fromDoc : Nat → String → Multiset α) (is_large : Multiset α → Bool)
    (writeOk : Multiset α → Bool) (readF : Nat → Option String)
    (docs : List Nat) : Except IoErr (Multiset α) :=
  run_single_threaded_aux fromDoc is_large writeOk readF docs.enum 0 0

/-- The dataflow of `run_pipeline` from `main.rs` up to `collect()`:
read each document, side-channel read errors, move off thread;
enumerate, build per-document indexes, move off thread, keep the `Ok`
ones; threshold-accumulate with `make_in_memory_merge`, keep the
emitted `AccValue::Value`s, move off thread; write each flushed index
to a segment file, side-channel write errors, move off thread, collect.

Every `off_thread` uses the hardcoded channel capacity 1024 and is
`none` (deadlock) when its stage produces more items.  A panic of the
reducer inside the stage-3 worker kills that worker after it has sent
the already-produced items, so downstream sees the prefix produced
before the panic (the `join` result is discarded with `let _ =`).

The result is `(collected messages, items sent to the error sink)`;
the sink receives first the stage-1 sends, then the stage-4 sends,
because each `off_thread` joins its worker before the next stage
starts. -/
def run_pipeline_run {α : Type} (fromDoc : Nat → String → Multiset α)
    (is_large : Multiset α → Bool) (writeOk : Multiset α → Bool)
    (readF : Nat → Option String) (docs : List Nat) :
    Option (List (Message (Multiset α)) × List (Except IoErr (Message (Multiset α)))) := do
  let r1 := errors_to (docs.map (read_whole_file readF))
  let s1 ← off_thread_run 1024 r1.1
  let s2 ← off_thread_run 1024 (s1.enum.map (make_single_file_index fromDoc))
  let idxs := s2.filterMap Except.toOption
  let s3 ← off_thread_run 1024
    (outValues (ConditionAccmulator.run (make_in_memory_merge is_large) 0 none idxs).2.1)
  let r4 := errors_to (s3.map (write_stage_item writeOk))
  let s4 ← off_thread_run 1024 r4.1
  pure (s4, r1.2 ++ r4.2)

/-- Error type of the stage-5 fold: the wrong-message-tag error
`"make_merge_index_file: Message type is incorroct."` or an error
propagated from `FileMerge::add_file`. -/
inductive MergeErr (E : Type) : Type where
  | wrongTag : MergeErr E
  | addErr : E → MergeErr E
deriving DecidableEq

/-- `make_merge_index_file` from `main.rs`: the stage-5 fold step.  A
`FilePath` message propagates an already-failed accumulator (`merge?`),
otherwise adds the file via `add_file` (`add`, the modelled
`FileMerge::add_file`); any other message tag yields the wrong-tag
error without consulting the accumulator. -/
def make_merge_index_file {σ π E : Type} (add : σ → π → Except E σ)
    (merge : Except (MergeErr E) σ) (message : Message π) :
    Except (MergeErr E) σ :=
  match message with
  | .FilePath file =>
    match merge with
    | .error e => .error e
    | .ok m =>
      match add m file with
      | .ok m' => .ok m'
      | .error e => .error (.addErr e)
  | .Text _ => .error .wrongTag

/-- The tail of `run_pipeline` (`main.rs` lines 120-127): fold the
collected messages into a fresh `FileMerge` (`init`); `let m = r?;`
propagates a fold failure as the function's `Err`, but the result of
`m.finish()` is discarded (`let _ = m.finish();`) and `Ok(())` is
returned. -/
def run_pipeline_result {σ π E : Type} (add : σ → π → Except E σ)
    (finish : σ → Except E Unit) (init : σ) (msgs : List (Message π)) :
    Except (MergeErr E) Unit :=
  match msgs.foldl (make_merge_index_file add) (.ok init) with
  | .error e => .error e
  | .ok m =>
    let _ := finish m
    .ok ()

/-- The pipelined branch of `run` (`main.rs` lines 222-227): the result
of `run_pipeline` is discarded (`let _ = run_pipeline(..)`), the error
handler drains the side-channel, and `Ok(())` is returned
unconditionally. -/
def run_pipelined_mode {α σ E : Type} (add : σ → Multiset α → Except E σ)
    (finish : σ → Except E Unit) (init : σ)
    (fromDoc : Nat → String → Multiset α) (is_large : Multiset α → Bool)
    (writeOk : Multiset α → Bool) (readF : Nat → Option String)
    (docs : List Nat) : Except (MergeErr E) Unit :=
  let _ := (run_pipeline_run fromDoc is_large writeOk readF docs).map
    (fun pr => run_pipeline_result add finish init pr.1)
  Except.ok ()

/-- The canonical content instantiation of `FileMerge::add_file`:
adding a segment file merges its content into the output.

Modelled from the spec: `SegmentMerger.add_file`/`finish` perform an
N-way merge of the added segment files; on the content model the final
index is the multiset union of the added contents, and this content
operation itself does not fail. -/
def content_add {α : Type} (m : Multiset α) (c : Multiset α) :
    Except Unit (Multiset α) :=
  .ok (m + c)

/-- The content of the final index produced by the pipelined path: run
the five-stage dataflow, then fold the collected segment files through
`make_merge_index_file` with the content model of `FileMerge`; `none`
when the pipeline deadlocks or the fold fails. -/
def run_pipeline_content {α : Type} (fromDoc : Nat → String → Multiset α)
    (is_large : Multiset α → Bool) (writeOk : Multiset α → Bool)
    (readF : Nat → Option String) (docs : List Nat) : Option (Multiset α) :=
  (run_pipeline_run fromDoc is_large writeOk readF docs).bind fun pr =>
    match pr.1.foldl (make_merge_index_file content_add) (.ok 0) with
    | .ok m => some m
    | .error _ => none

/-- The enumerated stream entering stage 2 of `run_pipeline`
(`main.rs` lines 96-101): documents are read, read failures are
filtered out to the error sink, and only then does `enumerate()`
attach document ids. -/
def pipeline_enumerate {π : Type} (readF : Nat → Option String)
    (docs : List Nat) : List (Nat × Message π) :=
  (errors_to (docs.map (read_whole_file readF))).1.enum

/-- Whether a `Result` value is an `Err` (what `errors_to` forwards). -/
def isErrResult {E α : Type} : Except E α → Bool
  | .error _ => true
  | .ok _ => false

/-- The per-document index content contributed by one enumerated
document: what `InMemoryIndex::from_single_document(doc_id, text)`
produces for document `ip.2` at input position `ip.1` (its text
defaulting to `""`, only used under a successful read). -/
def doc_index {α : Type} (fromDoc : Nat → String → Multiset α)
    (readF : Nat → Option String) (ip : Nat × Nat) : Multiset α :=
  fromDoc ip.1 ((readF ip.2).getD "")

/-- A concrete threshold reducer over multiset contents, in the shape
of `make_in_memory_merge` (merge, emit-and-reset once the accumulator
holds at least two postings), used to instantiate the combinator
theorems on concrete inputs. -/
def cRed (acc : Multiset ℕ) (x : Option (Multiset ℕ)) :
    Multiset ℕ × Option (Multiset ℕ) :=
  match x with
  | none => (acc, none)
  | some m =>
    if 2 ≤ Multiset.card (acc + m) then (0, some (acc + m))
    else (acc + m, none)

/-- A concrete single-posting `from_single_document` model: the
document's index records its id and text as one posting. -/
def dFromDoc (i : Nat) (t : String) : Multiset (Nat × String) := {(i, t)}

/-- A concrete filesystem on which document `0` is unreadable and every
other document reads as `"b"`. -/
def read_fail_first : Nat → Option String :=
  fun p => if p = 0 then none else some "b"

/-- A concrete filesystem on which every document reads as `"x"`. -/
def read_all_ok : Nat → Option String := fun _ => some "x"

/-- A concrete write model on which every segment write succeeds. -/
def write_all_ok {α : Type} : Multiset α → Bool := fun _ => true

/-- A concrete `from_single_document` model whose posting is the
document id. -/
def c1_fromDoc : Nat → String → Multiset ℕ := fun i _ => {i}

/-- A modelled `FileMerge::finish` that always fails. -/
def finish_fail : Multiset ℕ → Except Unit Unit := fun _ => .error ()

/-- A modelled `FileMerge::add_file` that always fails. -/
def add_fail : Multiset ℕ → Multiset ℕ → Except Unit (Multiset ℕ) :=
  fun _ _ => .error ()

/-- A modelled `FileMerge::finish` that always succeeds. -/
def finish_ok : Multiset ℕ → Except Unit Unit := fun _ => .ok ()

/-! ### Helper lemmas -/

@[simp] lemma outValues_nil {T : Type} : outValues ([] : List (AccValue T)) = [] := rfl

@[simp] lemma outValues_cons_empty {T : Type} (l : List (AccValue T)) :
    outValues (AccValue.Empty :: l) = outValues l := rfl

@[simp] lemma outValues_cons_value {T : Type} (v : T) (l : List (AccValue T)) :
    outValues (AccValue.Value v :: l) = v :: outValues l := rfl

lemma errors_to_fst {E α : Type} (l : List (Except E α)) :
    (errors_to l).1 = l.filterMap Except.toOption := by
  induction l with
  | nil => rfl
  | cons x t ih => cases x <;> simp [errors_to, Except.toOption, ih]

lemma errors_to_snd {E α : Type} (l : List (Except E α)) :
    (errors_to l).2 = l.filter isErrResult := by
  induction l with
  | nil => rfl
  | cons x t ih => cases x <;> simp [errors_to, isErrResult, ih]

lemma errors_to_length {E α : Type} (l : List (Except E α)) :
    l.length = (errors_to l).1.length + (errors_to l).2.length := by
  induction l with
  | nil => rfl
  | cons x t ih => cases x <;> simp [errors_to, ih] <;> omega

lemma off_thread_run_eq_some {γ : Type} {cap : Nat} {l m : List γ}
    (h : off_thread_run cap l = some m) : m = l := by
  unfold off_thread_run at h
  split at h
  · exact (Option.some.inj h).symm
  · exact absurd h (by simp)

lemma engine_cons_none {T : Type} (f : T → Option T → Option (T × Option T))
    (acc : T) (h : T) (t : List T) :
    ConditionAccmulator.run f acc none (h :: t) =
      ConditionAccmulator.run f acc (some h) t := rfl

lemma engine_sum_aux {M : Type} [AddCommMonoid M]
    (g : M → Option M → Option (M × Option M))
    (hg : ∀ acc x, g acc (some x) = some (acc + x, none) ∨
      g acc (some x) = some (0, some (acc + x))) :
    ∀ (t : List M) (v acc : M),
      (outValues (ConditionAccmulator.run g acc (some v) t).2.1).sum
        = acc + v + t.sum := by
  intro t
  induction t with
  | nil =>
    intro v acc
    rcases hg acc v with h | h <;>
      simp [ConditionAccmulator.run, h]
  | cons hd tl ih =>
    intro v acc
    rcases hg acc v with h | h <;>
      simp [ConditionAccmulator.run, h, ih, add_assoc]

lemma engine_calls_aux {T : Type} (g : T → Option T → Option (T × Option T))
    (hg : ∀ acc x, (g acc (some x)).isSome) :
    ∀ (t : List T) (v acc : T),
      (ConditionAccmulator.run g acc (some v) t).1 = (v :: t).map some := by
  intro t
  induction t with
  | nil =>
    intro v acc
    rcases h : g acc (some v) with _ | ⟨a, r⟩
    · exact absurd (hg acc v) (by simp [h])
    · cases r <;> simp [ConditionAccmulator.run, h]
  | cons hd tl ih =>
    intro v acc
    rcases h : g acc (some v) with _ | ⟨a, r⟩
    · exact absurd (hg acc v) (by simp [h])
    · cases r <;> simp [ConditionAccmulator.run, h, ih]

lemma engine_last_aux {T : Type} (g : T → Option T → Option (T × Option T))
    (hg : ∀ acc x, (g acc (some x)).isSome) :
    ∀ (t : List T) (v acc : T),
      ∃ w l', (ConditionAccmulator.run g acc (some v) t).2.1
        = l' ++ [AccValue.Value w] := by
  intro t
  induction t with
  | nil =>
    intro v acc
    rcases h : g acc (some v) with _ | ⟨a, r⟩
    · exact absurd (hg acc v) (by simp [h])
    · cases r <;> simp [ConditionAccmulator.run, h] <;>
        exact ⟨_, [], rfl⟩
  | cons hd tl ih =>
    intro v acc
    rcases h : g acc (some v) with _ | ⟨a, r⟩
    · exact absurd (hg acc v) (by simp [h])
    · obtain ⟨w, l', hl⟩ := ih hd a
      cases r <;> simp [ConditionAccmulator.run, h, hl] <;>
        exact ⟨w, _ :: l', rfl⟩

lemma engine_out_terminal_mm {α : Type} (is_large : Multiset α → Bool)
    (acc x : Multiset α) :
    (ConditionAccmulator.run (make_in_memory_merge is_large) acc (some x)
      ([] : List (Multiset α))).2.1 = [AccValue.Value (acc + x)] := by
  by_cases hl : is_large (acc + x) <;>
    simp [ConditionAccmulator.run, make_in_memory_merge, hl]

lemma engine_out_cons_mm_large {α : Type} (is_large : Multiset α → Bool)
    (acc x h : Multiset α) (t : List (Multiset α)) (hl : is_large (acc + x)) :
    (ConditionAccmulator.run (make_in_memory_merge is_large) acc (some x)
        (h :: t)).2.1
      = AccValue.Value (acc + x) ::
        (ConditionAccmulator.run (make_in_memory_merge is_large) 0 (some h) t).2.1 := by
  simp [ConditionAccmulator.run, make_in_memory_merge, hl]

lemma engine_out_cons_mm_small {α : Type} (is_large : Multiset α → Bool)
    (acc x h : Multiset α) (t : List (Multiset α)) (hl : ¬ is_large (acc + x)) :
    (ConditionAccmulator.run (make_in_memory_merge is_large) acc (some x)
        (h :: t)).2.1
      = AccValue.Empty ::
        (ConditionAccmulator.run (make_in_memory_merge is_large) (acc + x)
          (some h) t).2.1 := by
  simp [ConditionAccmulator.run, make_in_memory_merge, hl]

lemma run_single_threaded_aux_sync {α : Type} [DecidableEq α]
    (fromDoc : Nat → String → Multiset α) (is_large : Multiset α → Bool)
    (writeOk : Multiset α → Bool) (readF : Nat → Option String) :
    ∀ (rest : List (Nat × Nat)) (hd : Nat × Nat) (acc segs i : Multiset α),
      run_single_threaded_aux fromDoc is_large writeOk readF (hd :: rest) acc segs
        = .ok i →
      (∀ dp ∈ hd :: rest, (readF dp.2).isSome) ∧
      i = segs + ((outValues (ConditionAccmulator.run (make_in_memory_merge is_large)
          acc (some (doc_index fromDoc readF hd))
          (rest.map (doc_index fromDoc readF))).2.1).filter writeOk).sum := by
  intro rest
  induction rest with
  | nil =>
    intro hd acc segs i h
    obtain ⟨d, q⟩ := hd
    unfold run_single_threaded_aux at h
    cases hr : readF q with
    | none => rw [hr] at h; exact absurd h (by simp)
    | some text =>
      rw [hr] at h
      simp only at h
      have hdoc : doc_index fromDoc readF (d, q) = fromDoc d text := by
        simp [doc_index, hr]
      refine ⟨?_, ?_⟩
      · intro dp hdp
        simp only [List.mem_singleton] at hdp
        subst hdp
        simp [hr]
      · rw [hdoc, List.map_nil, engine_out_terminal_mm]
        by_cases hl : is_large (acc + fromDoc d text)
        · rw [if_pos hl] at h
          by_cases hw : writeOk (acc + fromDoc d text)
          · rw [if_pos hw] at h
            unfold run_single_threaded_aux at h
            rw [if_pos rfl] at h
            cases h
            simp [hw]
          · rw [if_neg hw] at h
            exact absurd h (by simp)
        · rw [if_neg hl] at h
          unfold run_single_threaded_aux at h
          by_cases h0 : acc + fromDoc d text = 0
          · rw [if_pos h0] at h
            cases h
            rw [h0]
            cases hw : writeOk 0 <;> simp [hw]
          · rw [if_neg h0] at h
            by_cases hw : writeOk (acc + fromDoc d text)
            · rw [if_pos hw] at h
              cases h
              simp [hw]
            · rw [if_neg hw] at h
              exact absurd h (by simp)
  | cons r rest' ih =>
    intro hd acc segs i h
    obtain ⟨d, q⟩ := hd
    unfold run_single_threaded_aux at h
    cases hr : readF q with
    | none => rw [hr] at h; exact absurd h (by simp)
    | some text =>
      rw [hr] at h
      simp only at h
      have hdoc : doc_index fromDoc readF (d, q) = fromDoc d text := by
        simp [doc_index, hr]
      by_cases hl : is_large (acc + fromDoc d text)
      · rw [if_pos hl] at h
        by_cases hw : writeOk (acc + fromDoc d text)
        · rw [if_pos hw] at h
          obtain ⟨hall', hi'⟩ := ih r 0 (segs + (acc + fromDoc d text)) i h
          refine ⟨?_, ?_⟩
          · intro dp hdp
            rcases List.mem_cons.mp hdp with hdp | hdp
            · subst hdp; simp [hr]
            · exact hall' dp hdp
          · rw [hi', hdoc, List.map_cons,
              engine_out_cons_mm_large is_large _ _ _ _ hl]
            simp [hw, add_assoc]
        · rw [if_neg hw] at h
          exact absurd h (by simp)
      · rw [if_neg hl] at h
        obtain ⟨hall', hi'⟩ := ih r (acc + fromDoc d text) segs i h
        refine ⟨?_, ?_⟩
        · intro dp hdp
          rcases List.mem_cons.mp hdp with hdp | hdp
          · subst hdp; simp [hr]
          · exact hall' dp hdp
        · rw [hi', hdoc, List.map_cons,
            engine_out_cons_mm_small is_large _ _ _ _ hl]
          simp

lemma pipeline_texts_of_success {π : Type} (readF : Nat → Option String)
    (docs : List Nat) (h : ∀ p ∈ docs, (readF p).isSome) :
    (errors_to (docs.map (read_whole_file (π := π) readF))).1
      = docs.map (fun p => Message.Text ((readF p).getD "")) := by
  induction docs with
  | nil => rfl
  | cons d t ih =>
    have hd := h d (by simp)
    cases hr : readF d with
    | none => rw [hr] at hd; simp at hd
    | some s =>
      simp [errors_to, read_whole_file, hr,
        ih (fun p hp => h p (List.mem_cons_of_mem d hp))]

lemma pipeline_idxs_aux {α : Type} (fromDoc : Nat → String → Multiset α)
    (readF : Nat → Option String) :
    ∀ (docs : List Nat) (n : Nat),
      (((docs.map (fun p =>
          (Message.Text ((readF p).getD "") : Message (Multiset α)))).enumFrom n).map
        (make_single_file_index fromDoc)).filterMap Except.toOption
        = (docs.enumFrom n).map (doc_index fromDoc readF) := by
  intro docs
  induction docs with
  | nil => intro n; rfl
  | cons d t ih =>
    intro n
    simp [List.enumFrom, make_single_file_index, Except.toOption, doc_index, ih]

lemma errors_to_write_fst {α : Type} (writeOk : Multiset α → Bool)
    (l : List (Multiset α)) :
    (errors_to (l.map (write_stage_item writeOk))).1
      = (l.filter writeOk).map Message.FilePath := by
  induction l with
  | nil => rfl
  | cons h t ih =>
    by_cases hw : writeOk h <;>
      simp [errors_to, write_stage_item, hw, ih]

lemma errors_to_write_snd_mem {α : Type} (writeOk : Multiset α → Bool)
    (l : List (Multiset α)) :
    ∀ x ∈ (errors_to (l.map (write_stage_item writeOk))).2,
      x = Except.error IoErr.writeErr := by
  induction l with
  | nil => intro x hx; simp [errors_to] at hx
  | cons h t ih =>
    intro x hx
    by_cases hw : writeOk h
    · simp only [List.map_cons] at hx
      rw [show write_stage_item writeOk h = .ok (.FilePath h) by
        simp [write_stage_item, hw]] at hx
      exact ih x hx
    · simp only [List.map_cons] at hx
      rw [show write_stage_item writeOk h
          = (.error .writeErr : Except IoErr (Message (Multiset α))) by
        simp [write_stage_item, hw]] at hx
      rcases List.mem_cons.mp hx with hx | hx
      · exact hx
      · exact ih x hx

lemma errors_to_read_snd_mem {π : Type} (readF : Nat → Option String)
    (docs : List Nat) :
    ∀ x ∈ (errors_to (docs.map (read_whole_file (π := π) readF))).2,
      x = Except.error IoErr.readErr := by
  induction docs with
  | nil => intro x hx; simp [errors_to] at hx
  | cons d t ih =>
    intro x hx
    cases hr : readF d with
    | none =>
      simp only [List.map_cons] at hx
      rw [show read_whole_file (π := π) readF d
          = (.error .readErr : Except IoErr (Message π)) by
        simp [read_whole_file, hr]] at hx
      rcases List.mem_cons.mp hx with hx | hx
      · exact hx
      · exact ih x hx
    | some text =>
      simp only [List.map_cons] at hx
      rw [show read_whole_file (π := π) readF d
          = (.ok (.Text text) : Except IoErr (Message π)) by
        simp [read_whole_file, hr]] at hx
      exact ih x hx

lemma content_fold_ok {α : Type} :
    ∀ (s : List (Multiset α)) (m : Multiset α),
      (s.map Message.FilePath).foldl (make_merge_index_file content_add)
        (.ok m) = .ok (m + s.sum) := by
  intro s
  induction s with
  | nil => intro m; simp
  | cons h t ih =>
    intro m
    simp [make_merge_index_file, content_add, ih, add_assoc]

lemma run_pipeline_run_inv {α : Type} (fromDoc : Nat → String → Multiset α)
    (is_large : Multiset α → Bool) (writeOk : Multiset α → Bool)
    (readF : Nat → Option String) (docs : List Nat)
    (pr : List (Message (Multiset α)) × List (Except IoErr (Message (Multiset α))))
    (hrun : run_pipeline_run fromDoc is_large writeOk readF docs = some pr) :
    pr.1 = ((outValues (ConditionAccmulator.run (make_in_memory_merge is_large) 0 none
        (((errors_to (docs.map (read_whole_file (π := Multiset α) readF))).1.enum.map
          (make_single_file_index fromDoc)).filterMap Except.toOption)).2.1).filter
        writeOk).map Message.FilePath ∧
    pr.2 = (errors_to (docs.map (read_whole_file (π := Multiset α) readF))).2
        ++ (errors_to ((outValues (ConditionAccmulator.run
            (make_in_memory_merge is_large) 0 none
            (((errors_to (docs.map (read_whole_file (π := Multiset α) readF))).1.enum.map
              (make_single_file_index fromDoc)).filterMap Except.toOption)).2.1).map
          (write_stage_item writeOk))).2 := by
  unfold run_pipeline_run at hrun
  simp only [bind, pure, Option.bind_eq_some, Option.some.injEq] at hrun
  obtain ⟨s1, hs1, s2, hs2, s3, hs3, s4, hs4, hpr⟩ := hrun
  obtain rfl := off_thread_run_eq_some hs1
  obtain rfl := off_thread_run_eq_some hs2
  obtain rfl := off_thread_run_eq_some hs3
  obtain rfl := off_thread_run_eq_some hs4
  rw [← hpr]
  exact ⟨errors_to_write_fst writeOk _, rfl⟩

lemma fold_no_wrong_tag {α σ E : Type} (add : σ → Multiset α → Except E σ) :
    ∀ (files : List (Multiset α)) (r : Except (MergeErr E) σ),
      r ≠ .error .wrongTag →
      (files.map Message.FilePath).foldl (make_merge_index_file add) r
        ≠ .error .wrongTag := by
  intro files
  induction files with
  | nil => intro r hr; simpa using hr
  | cons f t ih =>
    intro r hr
    simp only [List.map_cons, List.foldl_cons]
    apply ih
    cases r with
    | error e => simpa [make_merge_index_file] using hr
    | ok m => cases hadd : add m f <;> simp [make_merge_index_file, hadd]

/-! ### Claim theorems -/

/-- C5 (code bug, evaluation at the failing input): `off_thread` joins
its worker before returning the receiver, so a source with more items
than the channel capacity (1025 items against the hardcoded capacity
1024) deadlocks — the worker blocks sending item 1025 into the full
channel while `off_thread` blocks in `join()` — instead of terminating
and yielding all items in source order as the claim states. -/
theorem off_thread_run_deadlocks :
    off_thread_run 1024 (List.range 1025) = none := by
  simp [off_thread_run]

/-- C7: `errors_to` yields exactly the payloads of the successful
items in their original relative order, forwards exactly the failing
items to the sink (each exactly once, in order), and the input length
is the sum of the output length and the number of forwarded
failures. -/
theorem errors_to_spec {E α : Type} (l : List (Except E α)) :
    (errors_to l).1 = l.filterMap Except.toOption ∧
    (errors_to l).2 = l.filter isErrResult ∧
    l.length = (errors_to l).1.length + (errors_to l).2.length :=
  ⟨errors_to_fst l, errors_to_snd l, errors_to_length l⟩

/-- C9: when the accumulate stage receives an empty sequence, the very
first `next()` call of the threshold accumulator finds the source
exhausted and passes `None` to the reducer `make_in_memory_merge`,
whose `file_index.unwrap()` panics: the run records exactly one reducer
call, with argument `none`, no emitted output, and the panic flag. -/
theorem accumulate_empty_input_panics {α : Type} (is_large : Multiset α → Bool) :
    ConditionAccmulator.run (make_in_memory_merge is_large) 0 none
      ([] : List (Multiset α)) = ([none], [], true) := rfl

/-- C2 (for reducers in the emit-and-reset shape the combinator is
specified for): `condition_reduce` passes each input item to the
reducer exactly once, in order, and the sum of the folds underlying the
emitted values equals the fold of the whole input — no item is counted
twice and none is dropped. -/
theorem condition_reduce_partition {M : Type} [AddCommMonoid M]
    (f : M → Option M → M × Option M)
    (hnone : ∀ acc, f acc none = (acc, none))
    (hsome : ∀ acc x, f acc (some x) = (acc + x, none) ∨
      f acc (some x) = (0, some (acc + x)))
    (l : List M) :
    (condition_calls f 0 l).filterMap id = l ∧
    (outValues (condition_reduce f 0 l)).sum = l.sum := by
  constructor
  · cases l with
    | nil =>
      rcases h0 : f 0 none with ⟨a, r⟩
      cases r <;> simp [condition_calls, ConditionAccmulator.run, h0]
    | cons h t =>
      have := engine_calls_aux (fun a i => some (f a i)) (by intro acc x; simp)
        t h 0
      unfold condition_calls
      rw [engine_cons_none, this]
      simp [List.filterMap_map, List.filterMap_some, Function.comp]
  · cases l with
    | nil =>
      simp [condition_reduce, ConditionAccmulator.run, hnone 0]
    | cons h t =>
      have := engine_sum_aux (fun a i => some (f a i))
        (by intro acc x; rcases hsome acc x with h | h <;> simp [h]) t h 0
      unfold condition_reduce
      rw [engine_cons_none, this]
      simp

/-- C2 witness: the partition theorem at the concrete threshold reducer
`cRed` and input `[ \x7b1\x7d, \x7b2\x7d, \x7b3\x7d ]`. -/
theorem condition_reduce_partition_witness :
    (condition_calls cRed 0 [{1}, {2}, {3}]).filterMap id
        = [({1} : Multiset ℕ), {2}, {3}] ∧
    (outValues (condition_reduce cRed 0 [{1}, {2}, {3}])).sum
        = [({1} : Multiset ℕ), {2}, {3}].sum :=
  condition_reduce_partition cRed (fun _ => rfl)
    (by
      intro acc x
      by_cases h : 2 ≤ Multiset.card (acc + x)
      · right; simp only [cRed, if_pos h]
      · left; simp only [cRed, if_neg h])
    [{1}, {2}, {3}]

/-- C4 counterexample: on the nonempty input `[ \x7b1\x7d ]` the reducer is
called exactly once, with the item (`some \x7b1\x7d`) — the one-item
lookahead has already detected end-of-input — and is never invoked with
the no-next-item signal `None`, contrary to the claim that at
end-of-input the reducer is invoked one final time with `None` for
every finite input sequence. -/
theorem condition_calls_no_final_none :
    condition_calls cRed 0 [({1} : Multiset ℕ)] = [some {1}] ∧
    none ∉ condition_calls cRed 0 [({1} : Multiset ℕ)] := by
  constructor <;> decide

/-- C4 as amended: the reducer receives the `None` signal only when the
input is empty; on a nonempty input every call receives an item (the
final one with end-of-input already detected by the lookahead).  In
either case the output stream always ends with an emitted
`AccValue.Value` — when the final call returns none the accumulator is
force-flushed by swapping in a fresh default value and emitting the old
one — so no partial accumulation is silently discarded. -/
theorem condition_reduce_final_flush {T : Type} (f : T → Option T → T × Option T)
    (dflt : T) (l : List T) :
    condition_calls f dflt l = (if l.isEmpty then [none] else l.map some) ∧
    ∃ v l', condition_reduce f dflt l = l' ++ [AccValue.Value v] := by
  constructor
  · cases l with
    | nil =>
      rcases h0 : f dflt none with ⟨a, r⟩
      cases r <;> simp [condition_calls, ConditionAccmulator.run, h0]
    | cons h t =>
      have := engine_calls_aux (fun a i => some (f a i)) (by intro acc x; simp)
        t h dflt
      unfold condition_calls
      rw [engine_cons_none, this]
      simp
  · cases l with
    | nil =>
      rcases h0 : f dflt none with ⟨a, r⟩
      cases r with
      | none =>
        exact ⟨a, [], by simp [condition_reduce, ConditionAccmulator.run, h0]⟩
      | some w =>
        exact ⟨w, [], by simp [condition_reduce, ConditionAccmulator.run, h0]⟩
    | cons h t =>
      obtain ⟨w, l', hl⟩ := engine_last_aux (fun a i => some (f a i))
        (by intro acc x; simp) t h dflt
      exact ⟨w, l', by unfold condition_reduce; rw [engine_cons_none, hl]⟩

/-- C3 counterexample: stage-5 merge failures do not abort the run nor
reach the top-level caller.  With a failing `finish`, `run_pipeline`'s
tail still returns `Ok(())` (the `let _ = m.finish();` discards the
error); and even when `add_file` fails — the one stage-5 failure that
does make `run_pipeline` return `Err` — the pipelined branch of `run`
returns `Ok(())` because `let _ = run_pipeline(..)` discards the
result.  This contradicts the claim that in pipelined mode `run`
returns `Err` exactly when such a fatal failure occurs and that the
caller prints it. -/
theorem stage5_failure_not_surfaced :
    finish_fail 0 = .error () ∧
    run_pipeline_result content_add finish_fail (0 : Multiset ℕ)
      ([] : List (Message (Multiset ℕ))) = .ok () ∧
    run_pipeline_result add_fail finish_fail 0
      [Message.FilePath ({1} : Multiset ℕ)] = .error (.addErr ()) ∧
    run_pipelined_mode add_fail finish_fail (0 : Multiset ℕ) c1_fromDoc
      (fun _ => true) write_all_ok read_all_ok [0] = .ok () := by
  refine ⟨rfl, rfl, rfl, rfl⟩

/-- C3 as amended: `FileMerge` construction is infallible; an
`add_file` failure (or a wrong message tag) during the stage-5 fold is
the exact condition under which `run_pipeline` returns `Err`; the
result of `m.finish()` is discarded inside `run_pipeline`, and in
pipelined mode `run` discards `run_pipeline`'s result entirely and
always returns `Ok(())`, so no stage-5 failure is surfaced to `run`'s
caller. -/
theorem run_pipeline_result_spec {σ π E : Type} :
    (∀ (add : σ → π → Except E σ) (finish : σ → Except E Unit) (init : σ)
      (msgs : List (Message π)),
      run_pipeline_result add finish init msgs
        = (msgs.foldl (make_merge_index_file add) (.ok init)).map (fun _ => ())) ∧
    (∀ {α : Type} (add : σ → Multiset α → Except E σ)
      (finish : σ → Except E Unit) (init : σ)
      (fromDoc : Nat → String → Multiset α) (is_large : Multiset α → Bool)
      (writeOk : Multiset α → Bool) (readF : Nat → Option String)
      (docs : List Nat),
      run_pipelined_mode add finish init fromDoc is_large writeOk readF docs
        = Except.ok ()) := by
  constructor
  · intro add finish init msgs
    unfold run_pipeline_result
    cases h : msgs.foldl (make_merge_index_file add) (.ok init) <;>
      simp [Except.map]
  · intro α add finish init fromDoc is_large writeOk readF docs
    rfl

/-- C6 counterexample: with document `0` unreadable and document `1`
reading as `"b"`, the text of the document at input position `1` is
paired with document id `0` — `enumerate()` runs after the error filter,
so ids are ordinal positions among the successfully read documents, not
in the CLI-expanded input list as the claim states. -/
theorem pipeline_doc_id_shifts :
    read_fail_first 1 = some "b" ∧
    pipeline_enumerate (π := ℕ) read_fail_first [0, 1]
      = [(0, Message.Text "b")] := by
  refine ⟨rfl, by decide⟩

/-- C6 as amended: each text is paired with its ordinal position among
the successfully read documents; when every document reads
successfully, this coincides with its ordinal position in the
CLI-expanded input list. -/
theorem pipeline_enumerate_of_success {π : Type} (readF : Nat → Option String)
    (docs : List Nat) (h : ∀ p ∈ docs, (readF p).isSome) :
    pipeline_enumerate (π := π) readF docs
      = docs.enum.map (fun ip => (ip.1, Message.Text ((readF ip.2).getD ""))) := by
  unfold pipeline_enumerate
  rw [pipeline_texts_of_success readF docs h, List.enum_map]
  simp [Prod.map]

/-- C6 witness: the amended pairing theorem evaluated on the
all-readable filesystem and documents `[3, 4]`. -/
theorem pipeline_enumerate_of_success_witness :
    (∀ p ∈ [3, 4], (read_all_ok p).isSome) ∧
    pipeline_enumerate (π := ℕ) read_all_ok [3, 4]
      = [3, 4].enum.map
          (fun ip => (ip.1, Message.Text ((read_all_ok ip.2).getD ""))) :=
  ⟨by decide, pipeline_enumerate_of_success read_all_ok [3, 4] (by decide)⟩

/-- C8 counterexample: a wrongly-tagged message reaching stage 2 makes
`make_single_file_index` return the `InvalidData` error, but the
following `filter_map(|result| result.ok())` silently discards it — the
stage has no `errors_to`, so nothing is forwarded to the error
side-channel, contrary to the claim that the failure is reported the
same way as a recoverable per-item error.  (The subsequent text message
is still processed: remaining work is indeed not halted.) -/
theorem wrong_tag_error_dropped :
    make_single_file_index dFromDoc (0, Message.FilePath (7 : ℕ))
      = .error .notText ∧
    ([((0 : Nat), Message.FilePath (7 : ℕ)), (1, Message.Text "a")].map
        (make_single_file_index dFromDoc)).filterMap Except.toOption
      = [({(1, "a")} : Multiset (Nat × String))] := by
  refine ⟨rfl, rfl⟩

/-- C8 as amended: stage 2 keeps exactly the indexes of the
`Text`-tagged items, silently discarding the errors of wrongly-tagged
ones (remaining items continue to be processed), and the stage-2
wrong-tag error is never forwarded to the error side-channel of a
pipelined run (the sink receives only stage-1 read failures and
stage-4 write failures), for every write-failure behaviour. -/
theorem index_stage_drops_wrong_tag {β π : Type} :
    (∀ (fromDoc : Nat → String → β) (msgs : List (Nat × Message π)),
      (msgs.map (make_single_file_index fromDoc)).filterMap Except.toOption
        = msgs.filterMap (fun im =>
            match im.2 with
            | Message.Text t => some (fromDoc im.1 t)
            | Message.FilePath _ => none)) ∧
    (∀ (α : Type) (fromDoc : Nat → String → Multiset α)
      (is_large : Multiset α → Bool) (writeOk : Multiset α → Bool)
      (readF : Nat → Option String) (docs : List Nat),
      Except.error IoErr.notText ∉
        (((run_pipeline_run fromDoc is_large writeOk readF docs).map Prod.snd).getD
          ([] : List (Except IoErr (Message (Multiset α)))))) := by
  constructor
  · intro fromDoc msgs
    induction msgs with
    | nil => rfl
    | cons im t ih =>
      obtain ⟨i, m⟩ := im
      cases m <;> simp [make_single_file_index, Except.toOption, ih]
  · intro α fromDoc is_large writeOk readF docs
    cases hrun : run_pipeline_run fromDoc is_large writeOk readF docs with
    | none => simp
    | some pr =>
      obtain ⟨_, hsink⟩ :=
        run_pipeline_run_inv fromDoc is_large writeOk readF docs pr hrun
      rw [show ((some pr).map Prod.snd).getD
        ([] : List (Except IoErr (Message (Multiset α)))) = pr.2 from rfl, hsink]
      intro hmem
      rcases List.mem_append.mp hmem with hmem | hmem
      · have := errors_to_read_snd_mem readF docs _ hmem
        simp at this
      · have := errors_to_write_snd_mem writeOk _ _ hmem
        simp at this

/-- C10: every message collected for the stage-5 fold is a
`Message::FilePath` (stage 4 wraps each segment file in `FilePath`, and
`errors_to` passes only `Ok` payloads), so the fold never produces the
defensive `"Message type is incorroct."` wrong-tag error of
`make_merge_index_file`, whatever the behaviour of the modelled
`FileMerge::add_file`. -/
theorem stage5_wrong_tag_unreachable {α σ E : Type}
    (fromDoc : Nat → String → Multiset α) (is_large : Multiset α → Bool)
    (writeOk : Multiset α → Bool) (readF : Nat → Option String)
    (docs : List Nat) (add : σ → Multiset α → Except E σ) (init : σ) :
    (((run_pipeline_run fromDoc is_large writeOk readF docs).map
      Prod.fst).getD []).all Message.isFilePath = true ∧
    (((run_pipeline_run fromDoc is_large writeOk readF docs).map
      Prod.fst).getD []).foldl
      (make_merge_index_file add) (.ok init) ≠ Except.error MergeErr.wrongTag := by
  cases hrun : run_pipeline_run fromDoc is_large writeOk readF docs with
  | none => exact ⟨rfl, by simp⟩
  | some pr =>
    obtain ⟨hmsgs, _⟩ :=
      run_pipeline_run_inv fromDoc is_large writeOk readF docs pr hrun
    constructor
    · rw [show ((some pr).map Prod.fst).getD
        ([] : List (Message (Multiset α))) = pr.1 from rfl, hmsgs,
        List.all_eq_true]
      intro x hx
      obtain ⟨b, _, rfl⟩ := List.mem_map.mp hx
      rfl
    · rw [show ((some pr).map Prod.fst).getD
        ([] : List (Message (Multiset α))) = pr.1 from rfl, hmsgs]
      exact fold_no_wrong_tag add _ (.ok init) (by simp)

/-- C1: whenever the single-threaded reference path completes
successfully and the pipelined path terminates with a final index, the
two paths produce the same final index content (the same multiset of
postings, i.e. the same term-to-postings mapping), for every document
set, filesystem, `from_single_document` collaborator, write-failure
behaviour and `is_large` threshold predicate.  The modelled dataflow
is deterministic (each `off_thread` joins its worker), so the result
does not depend on scheduling. -/
theorem run_pipeline_matches_single {α : Type} [DecidableEq α]
    (fromDoc : Nat → String → Multiset α) (is_large : Multiset α → Bool)
    (writeOk : Multiset α → Bool) (readF : Nat → Option String)
    (docs : List Nat) (i₁ i₂ : Multiset α)
    (h1 : run_single_threaded fromDoc is_large writeOk readF docs = .ok i₁)
    (h2 : run_pipeline_content fromDoc is_large writeOk readF docs = some i₂) :
    i₁ = i₂ := by
  cases docs with
  | nil =>
    have e1 : run_single_threaded fromDoc is_large writeOk readF [] = .ok 0 := by
      simp [run_single_threaded, run_single_threaded_aux]
    have e2 : run_pipeline_content fromDoc is_large writeOk readF []
        = some (0 : Multiset α) := rfl
    rw [e1] at h1
    rw [e2] at h2
    simp only [Except.ok.injEq] at h1
    simp only [Option.some.injEq] at h2
    rw [← h1, ← h2]
  | cons d t =>
    have henum : (d :: t).enum = (0, d) :: t.enumFrom 1 := by
      simp [List.enum_eq_enumFrom, List.enumFrom]
    unfold run_single_threaded at h1
    rw [henum] at h1
    obtain ⟨hall, hi1⟩ := run_single_threaded_aux_sync fromDoc is_large writeOk
      readF (t.enumFrom 1) (0, d) 0 0 i₁ h1
    have hall' : ∀ p ∈ d :: t, (readF p).isSome := by
      intro p hp
      rw [← List.enum_map_snd (d :: t)] at hp
      obtain ⟨q, hq, hqp⟩ := List.mem_map.mp hp
      rw [← hqp]
      exact hall q (henum ▸ hq)
    unfold run_pipeline_content at h2
    cases hrun : run_pipeline_run fromDoc is_large writeOk readF (d :: t) with
    | none => rw [hrun] at h2; exact absurd h2 (by simp)
    | some pr =>
      rw [hrun, Option.some_bind] at h2
      obtain ⟨hmsgs, _⟩ :=
        run_pipeline_run_inv fromDoc is_large writeOk readF (d :: t) pr hrun
      rw [pipeline_texts_of_success readF (d :: t) hall'] at hmsgs
      rw [show ((d :: t).map (fun p =>
            (Message.Text ((readF p).getD "") : Message (Multiset α)))).enum
          = ((d :: t).map (fun p =>
            (Message.Text ((readF p).getD "") : Message (Multiset α)))).enumFrom 0
          from List.enum_eq_enumFrom,
        pipeline_idxs_aux fromDoc readF (d :: t) 0] at hmsgs
      rw [hmsgs, content_fold_ok] at h2
      simp only [Option.some.injEq] at h2
      have halign : (((d :: t).enumFrom 0).map (doc_index fromDoc readF))
          = doc_index fromDoc readF (0, d)
            :: ((t.enumFrom 1).map (doc_index fromDoc readF)) := by
        simp [List.enumFrom]
      rw [← h2, hi1, halign, engine_cons_none]

/-- C1 witness: both paths evaluated on two readable documents with a
never-firing threshold and always-succeeding writes produce the same
content. -/
theorem run_pipeline_matches_single_witness :
    run_single_threaded c1_fromDoc (fun _ => false) write_all_ok read_all_ok [0, 1]
      = .ok ({0, 1} : Multiset ℕ) ∧
    run_pipeline_content c1_fromDoc (fun _ => false) write_all_ok read_all_ok [0, 1]
      = some ({0, 1} : Multiset ℕ) ∧
    ({0, 1} : Multiset ℕ) = ({0, 1} : Multiset ℕ) :=
  ⟨by decide, by decide,
    run_pipeline_matches_single c1_fromDoc (fun _ => false) write_all_ok
      read_all_ok [0, 1] {0, 1} {0, 1} (by decide) (by decide)⟩

end Fingertips
